import Mathlib

/-!
Verification development for the Alan podcast pipeline.

The repository ships the frontend, the API reference (`docs/API_DOCUMENT.md`,
the TypeScript and error-code guides) and the Supabase cleanup edge function;
the backend pipeline engine and streaming server themselves are not part of
the checked-in sources.  Accordingly the engine, job store, queue and
streaming server below are modelled from the specification, while the
status-step vocabulary, its progress table, the validation rules, the
error codes and the cleanup function are translated from the files present
in the repository.
-/

/-- Modelled from the spec: §4.1 pipeline stage enumeration of the missing
engine sources — the fixed order `start → extract → combine → script → audio
→ merge → transcript → completed` plus the side terminal `failed`. -/
inductive Stage
  | start | extract | combine | script | audio | merge | transcript | completed | failed
deriving DecidableEq, Repr, Fintype

/-- Position of a stage in the fixed order; `failed` sits outside the chain. -/
def stageIdx : Stage → Nat
  | .start => 0 | .extract => 1 | .combine => 2 | .script => 3
  | .audio => 4 | .merge => 5 | .transcript => 6 | .completed => 7 | .failed => 8

/-- `completed` and `failed` are the two terminal stages. -/
def isTerminal : Stage → Bool
  | .completed => true | .failed => true | _ => false

/-- Modelled from the spec: §4.1 successor in the fixed stage order of the
missing engine sources; terminal stages have no successor. -/
def nextStage : Stage → Option Stage
  | .start => some .extract
  | .extract => some .combine
  | .combine => some .script
  | .script => some .audio
  | .audio => some .merge
  | .merge => some .transcript
  | .transcript => some .completed
  | .completed => none
  | .failed => none

/-- Modelled from the spec: §6 fixed progress mapping of the missing engine
sources (`start`→0, `extract`→30, `combine`→40, `script`→60, `audio`→80,
`merge`→90, `transcript`/`completed`→100, `failed`→-1). -/
def progressOfStage : Stage → Int
  | .start => 0 | .extract => 30 | .combine => 40 | .script => 60
  | .audio => 80 | .merge => 90 | .transcript => 100 | .completed => 100
  | .failed => -1

/-- Chapter entry of a completed result (durations abstracted to naturals). -/
structure ChapterInfo where
  chapter : Nat
  title : String
  duration : Nat
deriving DecidableEq, Repr

/-- Result payload stored on a completed job: chapter list plus total duration. -/
structure ResultData where
  chapters : List ChapterInfo
  total_duration : Nat
deriving DecidableEq, Repr

/-- Modelled from the spec: §3 Job record of the missing engine sources —
current stage, derived progress, result populated only on completion, error
populated only on failure. -/
structure Job where
  stage : Stage
  progress : Int
  result : Option ResultData
  error : Option String
deriving DecidableEq, Repr

/-- Modelled from the spec: §3 stage message `{job_id, stage_to_run}`; the
queue payload carries no business data. -/
structure Msg where
  job_id : Nat
  stage_to_run : Stage
deriving DecidableEq, Repr

/-- Modelled from the spec: §4.2 Job Store, as a map from job id to record. -/
def JobStore := Nat → Option Job

/-- Point update of a job store. -/
def updateStore (st : JobStore) (jid : Nat) (j : Job) : JobStore :=
  fun k => if k = jid then some j else st k

/-- Modelled from the spec: §4.4 stage handlers — a pure function per stage
returning output or an error message. -/
def StageHandlers := Stage → Job → Except String ResultData

/-- Fresh job as persisted by submission: stage `start`, progress 0. -/
def newJob : Job :=
  { stage := .start, progress := 0, result := none, error := none }

/-- Job record advanced to stage `ns` with the handler output `out`. -/
def advanceJob (ns : Stage) (out : ResultData) : Job :=
  { stage := ns
    progress := progressOfStage ns
    result := if ns = .completed then some out else none
    error := none }

/-- Job record after a handler failure: terminal `failed` with the message. -/
def failJob (e : String) : Job :=
  { stage := .failed, progress := -1, result := none, error := some e }

/-- Handler invocation and persistence step of `handle`: on success persist
the advanced job and enqueue the next stage message unless the new stage is
`completed`; on failure persist the failed job and enqueue nothing. -/
def runStage (H : StageHandlers) (st : JobStore) (m : Msg) (j : Job) (ns : Stage) :
    JobStore × List Msg :=
  match H m.stage_to_run j with
  | .ok out =>
      (updateStore st m.job_id (advanceJob ns out),
       if ns = .completed then [] else [⟨m.job_id, ns⟩])
  | .error e => (updateStore st m.job_id (failJob e), [])

/-- Modelled from the spec: §4.1 `handle(message)` of the missing engine
sources.  Load the job (absent → drop); drop when the job is terminal or
already past `stage_to_run`; drop when no handler is registered for
`stage_to_run` (terminal stages); otherwise run the stage handler and
persist its outcome. -/
def handle (H : StageHandlers) (st : JobStore) (m : Msg) : JobStore × List Msg :=
  match st m.job_id with
  | none => (st, [])
  | some j =>
      if isTerminal j.stage = true ∨ stageIdx m.stage_to_run < stageIdx j.stage then
        (st, [])
      else
        match nextStage m.stage_to_run with
        | none => (st, [])
        | some ns => runStage H st m j ns

-- Small decidable facts about the stage order.

theorem stageIdx_injective : ∀ a b : Stage, stageIdx a = stageIdx b → a = b := by decide

theorem nextStage_idx : ∀ a b : Stage, nextStage a = some b → stageIdx b = stageIdx a + 1 := by
  decide

theorem nextStage_of_nonterminal : ∀ a : Stage, isTerminal a = false → (nextStage a).isSome := by
  decide

theorem nextStage_cases : ∀ a b : Stage, nextStage a = some b →
    b = .completed ∨ isTerminal b = false := by decide

theorem nextStage_ne_failed : ∀ a b : Stage, nextStage a = some b → b ≠ .failed := by decide

theorem nextStage_ne_self : ∀ a b : Stage, nextStage a = some b → b ≠ a := by decide

-- Evaluation lemmas for `handle`.

theorem handle_absent (H : StageHandlers) (st : JobStore) (m : Msg)
    (h : st m.job_id = none) : handle H st m = (st, []) := by
  simp [handle, h]

theorem handle_drop (H : StageHandlers) (st : JobStore) (m : Msg) (j : Job)
    (h : st m.job_id = some j)
    (hd : isTerminal j.stage = true ∨ stageIdx m.stage_to_run < stageIdx j.stage) :
    handle H st m = (st, []) := by
  simp [handle, h, hd]

theorem handle_run (H : StageHandlers) (st : JobStore) (m : Msg) (j : Job) (ns : Stage)
    (h : st m.job_id = some j)
    (hd : ¬ (isTerminal j.stage = true ∨ stageIdx m.stage_to_run < stageIdx j.stage))
    (hns : nextStage m.stage_to_run = some ns) :
    handle H st m = runStage H st m j ns := by
  simp [handle, h, hd, hns]

theorem handle_noreg (H : StageHandlers) (st : JobStore) (m : Msg) (j : Job)
    (h : st m.job_id = some j)
    (hd : ¬ (isTerminal j.stage = true ∨ stageIdx m.stage_to_run < stageIdx j.stage))
    (hns : nextStage m.stage_to_run = none) :
    handle H st m = (st, []) := by
  simp [handle, h, hd, hns]

theorem updateStore_self (st : JobStore) (jid : Nat) (j : Job) :
    updateStore st jid j jid = some j := by
  simp [updateStore]

theorem updateStore_other (st : JobStore) (jid k : Nat) (j : Job) (hk : k ≠ jid) :
    updateStore st jid j k = st k := by
  simp [updateStore, hk]

/-- Modelled from the spec: §6 submission input of the missing engine sources
— parsed file and link reference lists, the main-source designator
(`main_kind` with 0-based `main_index`) and generation options; only the
fields the validation rules inspect are kept. -/
structure Submission where
  files : List String
  links : List String
  main_kind : String
  main_index : Nat
deriving DecidableEq, Repr

/-- Modelled from the spec: §4.1 submission validation of the missing engine
sources, per the constraints of `docs/API_DOCUMENT.md` (at least one input,
at most 4 inputs in total, `main_kind` either `file` or `link`, `main_index`
within the designated list).  Returns an error message, or `none` when valid. -/
def validateSubmission (sub : Submission) : Option String :=
  if sub.files.length + sub.links.length = 0 then
    some ("files and links are both empty")
  else if 4 < sub.files.length + sub.links.length then
    some ("at most 4 inputs are allowed")
  else if sub.main_kind = ("file") then
    (if sub.main_index < sub.files.length then none
     else some ("main_index out of range of files"))
  else if sub.main_kind = ("link") then
    (if sub.main_index < sub.links.length then none
     else some ("main_index out of range of links"))
  else some ("main_kind must be file or link")

/-- Modelled from the spec: §4.1 `submit` of the missing engine sources —
reject invalid submissions with a validation error and otherwise persist a
fresh job at stage `start` and enqueue the single message `{job_id, start}`. -/
def submitJob (st : JobStore) (msgs : List Msg) (jid : Nat) (sub : Submission) :
    Except String (JobStore × List Msg) :=
  match validateSubmission sub with
  | some e => .error e
  | none => .ok (updateStore st jid newJob, msgs ++ [⟨jid, .start⟩])

/-- Modelled from the spec: §2 system state — the durable job store plus the
multiset of stage messages ever enqueued (kept as a growing list, so that
at-least-once delivery may replay any of them). -/
structure SysState where
  store : JobStore
  msgs : List Msg

/-- Modelled from the spec: §2/§5 steps of the system — a submission creates
a fresh job and enqueues its `start` message, and a worker delivers any
previously enqueued message to `handle` (messages are never consumed, which
models at-least-once delivery and duplicate redelivery). -/
inductive EngineStep (H : StageHandlers) : SysState → SysState → Prop
  | submit (s : SysState) (jid : Nat) (sub : Submission)
      (hvalid : validateSubmission sub = none) (hfresh : s.store jid = none) :
      EngineStep H s ⟨updateStore s.store jid newJob, s.msgs ++ [⟨jid, .start⟩]⟩
  | deliver (s : SysState) (m : Msg) (hm : m ∈ s.msgs) :
      EngineStep H s ⟨(handle H s.store m).1, s.msgs ++ (handle H s.store m).2⟩

/-- The empty initial system state. -/
def initSys : SysState := ⟨fun _ => none, []⟩

/-- States reachable from the empty system by submissions and deliveries. -/
def Reachable (H : StageHandlers) (s : SysState) : Prop :=
  Relation.ReflTransGen (EngineStep H) initSys s

/-- Message invariant: every enqueued message points at an existing job, and
as long as that job is not terminal the message is not ahead of its stage. -/
def msgOK (st : JobStore) (m : Msg) : Prop :=
  ∃ j, st m.job_id = some j ∧
    (isTerminal j.stage = false → stageIdx m.stage_to_run ≤ stageIdx j.stage)

/-- Job invariant: result and error are gated by the stage — exactly one of
result-populated (completed), error-populated (failed), or neither. -/
def jobOK (j : Job) : Prop :=
  (j.result.isSome = true ∧ j.error = none ∧ j.stage = .completed) ∨
  (j.error.isSome = true ∧ j.result = none ∧ j.stage = .failed) ∨
  (j.result = none ∧ j.error = none ∧ isTerminal j.stage = false)

/-- System invariant: all messages and all stored jobs are well formed. -/
def SysInv (s : SysState) : Prop :=
  (∀ m ∈ s.msgs, msgOK s.store m) ∧ (∀ jid j, s.store jid = some j → jobOK j)

/-- Every message a `handle` invocation enqueues is for the delivered job. -/
theorem handle_msgs_jobid (H : StageHandlers) (st : JobStore) (m : Msg) :
    ∀ m2 ∈ (handle H st m).2, m2.job_id = m.job_id := by
  intro m2 hm2
  cases hst : st m.job_id with
  | none => rw [handle_absent H st m hst] at hm2; simp at hm2
  | some j =>
    by_cases hd : isTerminal j.stage = true ∨ stageIdx m.stage_to_run < stageIdx j.stage
    · rw [handle_drop H st m j hst hd] at hm2; simp at hm2
    · cases hns : nextStage m.stage_to_run with
      | none => rw [handle_noreg H st m j hst hd hns] at hm2; simp at hm2
      | some ns =>
        rw [handle_run H st m j ns hst hd hns] at hm2
        unfold runStage at hm2
        cases hH : H m.stage_to_run j with
        | ok out =>
          rw [hH] at hm2
          by_cases hc : ns = Stage.completed
          · simp [hc] at hm2
          · simp [hc] at hm2
            rw [hm2]
        | error e => rw [hH] at hm2; simp at hm2

/-- A `handle` invocation only writes the delivered job's record. -/
theorem handle_store_other (H : StageHandlers) (st : JobStore) (m : Msg) (k : Nat)
    (hk : k ≠ m.job_id) : (handle H st m).1 k = st k := by
  cases hst : st m.job_id with
  | none => rw [handle_absent H st m hst]
  | some j =>
    by_cases hd : isTerminal j.stage = true ∨ stageIdx m.stage_to_run < stageIdx j.stage
    · rw [handle_drop H st m j hst hd]
    · cases hns : nextStage m.stage_to_run with
      | none => rw [handle_noreg H st m j hst hd hns]
      | some ns =>
        rw [handle_run H st m j ns hst hd hns]
        unfold runStage
        cases hH : H m.stage_to_run j with
        | ok out => simpa using updateStore_other st m.job_id k (advanceJob ns out) hk
        | error e => simpa using updateStore_other st m.job_id k (failJob e) hk

/-- Complete case analysis of one `handle` invocation: it is either a no-op
drop, a successful advance of the delivered job by exactly one stage, or a
transition of the delivered job to `failed`. -/
theorem handle_outcome (H : StageHandlers) (st : JobStore) (m : Msg) :
    handle H st m = (st, []) ∨
    (∃ j ns out, st m.job_id = some j ∧ isTerminal j.stage = false ∧
      stageIdx j.stage ≤ stageIdx m.stage_to_run ∧ nextStage m.stage_to_run = some ns ∧
      H m.stage_to_run j = .ok out ∧
      handle H st m = (updateStore st m.job_id (advanceJob ns out),
        if ns = .completed then [] else [⟨m.job_id, ns⟩])) ∨
    (∃ j ns e, st m.job_id = some j ∧ isTerminal j.stage = false ∧
      stageIdx j.stage ≤ stageIdx m.stage_to_run ∧ nextStage m.stage_to_run = some ns ∧
      H m.stage_to_run j = .error e ∧
      handle H st m = (updateStore st m.job_id (failJob e), [])) := by
  cases hst : st m.job_id with
  | none => exact Or.inl (handle_absent H st m hst)
  | some j =>
    by_cases hd : isTerminal j.stage = true ∨ stageIdx m.stage_to_run < stageIdx j.stage
    · exact Or.inl (handle_drop H st m j hst hd)
    · push_neg at hd
      obtain ⟨hterm, hle⟩ := hd
      have hterm2 : isTerminal j.stage = false := by
        cases hb : isTerminal j.stage
        · rfl
        · exact absurd hb hterm
      have hd2 : ¬ (isTerminal j.stage = true ∨ stageIdx m.stage_to_run < stageIdx j.stage) := by
        rw [hterm2]
        simp
        omega
      cases hns : nextStage m.stage_to_run with
      | none => exact Or.inl (handle_noreg H st m j hst hd2 hns)
      | some ns =>
        have hrun := handle_run H st m j ns hst hd2 hns
        cases hH : H m.stage_to_run j with
        | ok out =>
          refine Or.inr (Or.inl ⟨j, ns, out, rfl, hterm2, hle, rfl, hH, ?_⟩)
          rw [hrun]
          unfold runStage
          rw [hH]
        | error e =>
          refine Or.inr (Or.inr ⟨j, ns, e, rfl, hterm2, hle, rfl, hH, ?_⟩)
          rw [hrun]
          unfold runStage
          rw [hH]

/-- Fresh jobs satisfy the result/error gate. -/
theorem jobOK_newJob : jobOK newJob := by
  refine Or.inr (Or.inr ?_)
  simp [newJob, isTerminal]

/-- Advanced jobs satisfy the result/error gate. -/
theorem jobOK_advanceJob (a ns : Stage) (out : ResultData) (hns : nextStage a = some ns) :
    jobOK (advanceJob ns out) := by
  by_cases hc : ns = Stage.completed
  · refine Or.inl ?_
    simp [advanceJob, hc]
  · refine Or.inr (Or.inr ?_)
    rcases nextStage_cases a ns hns with h | h
    · exact absurd h hc
    · simp [advanceJob, hc, h]

/-- Failed jobs satisfy the result/error gate. -/
theorem jobOK_failJob (e : String) : jobOK (failJob e) := by
  refine Or.inr (Or.inl ?_)
  simp [failJob]

/-- The system invariant holds at the empty initial state. -/
theorem sysInv_init : SysInv initSys := by
  constructor
  · intro m hm
    simp [initSys] at hm
  · intro jid j hj
    simp [initSys] at hj

/-- The system invariant is preserved by every engine step. -/
theorem sysInv_step (H : StageHandlers) (s s2 : SysState)
    (hinv : SysInv s) (hstep : EngineStep H s s2) : SysInv s2 := by
  obtain ⟨hmsgs, hjobs⟩ := hinv
  cases hstep with
  | submit jid sub hvalid hfresh =>
    constructor
    · intro m hm
      dsimp only at hm ⊢
      rcases List.mem_append.1 hm with hm1 | hm1
      · obtain ⟨j, hj, himp⟩ := hmsgs m hm1
        have hne : m.job_id ≠ jid := by
          intro he
          rw [he, hfresh] at hj
          exact Option.noConfusion hj
        refine ⟨j, ?_, himp⟩
        rw [updateStore_other _ _ _ _ hne]
        exact hj
      · have hm2 : m = ⟨jid, .start⟩ := by simpa using hm1
        subst hm2
        refine ⟨newJob, updateStore_self _ _ _, ?_⟩
        intro _
        exact Nat.le_refl _
    · intro jid2 j hj
      dsimp only at hj
      by_cases he : jid2 = jid
      · subst he
        rw [updateStore_self] at hj
        cases hj
        exact jobOK_newJob
      · rw [updateStore_other _ _ _ _ he] at hj
        exact hjobs jid2 j hj
  | deliver m hm =>
    rcases handle_outcome H s.store m with hout | ⟨j, ns, out, hj, hterm, hle, hns, hH, hout⟩ |
        ⟨j, ns, e, hj, hterm, hle, hns, hH, hout⟩
    · constructor
      · intro m2 hm2
        dsimp only at hm2 ⊢
        rw [hout] at hm2 ⊢
        dsimp only at hm2 ⊢
        simp only [List.append_nil] at hm2
        exact hmsgs m2 hm2
      · intro jid2 j2 hj2
        dsimp only at hj2
        rw [hout] at hj2
        dsimp only at hj2
        exact hjobs jid2 j2 hj2
    · -- successful advance of the delivered job
      have hidx : stageIdx ns = stageIdx m.stage_to_run + 1 := nextStage_idx _ _ hns
      constructor
      · intro m2 hm2
        dsimp only at hm2 ⊢
        rw [hout] at hm2 ⊢
        dsimp only at hm2 ⊢
        simp only [List.mem_append] at hm2
        rcases hm2 with hm2 | hm2
        · obtain ⟨j0, hj0, himp0⟩ := hmsgs m2 hm2
          by_cases he : m2.job_id = m.job_id
          · rw [he] at hj0
            rw [hj0] at hj
            have hj3 : j0 = j := Option.some.inj hj
            refine ⟨advanceJob ns out, by rw [he]; exact updateStore_self _ _ _, ?_⟩
            intro _
            have h1 : stageIdx m2.stage_to_run ≤ stageIdx j0.stage :=
              himp0 (by rw [hj3]; exact hterm)
            have h2 : stageIdx j0.stage ≤ stageIdx m.stage_to_run := by
              rw [hj3]; exact hle
            simp only [advanceJob]
            omega
          · refine ⟨j0, ?_, himp0⟩
            rw [updateStore_other _ _ _ _ he]
            exact hj0
        · by_cases hc : ns = Stage.completed
          · rw [if_pos hc] at hm2
            simp at hm2
          · rw [if_neg hc] at hm2
            have hm3 : m2 = ⟨m.job_id, ns⟩ := by simpa using hm2
            subst hm3
            refine ⟨advanceJob ns out, updateStore_self _ _ _, ?_⟩
            intro _
            exact Nat.le_refl _
      · intro jid2 j2 hj2
        dsimp only at hj2
        rw [hout] at hj2
        dsimp only at hj2
        by_cases he : jid2 = m.job_id
        · subst he
          rw [updateStore_self] at hj2
          cases hj2
          exact jobOK_advanceJob m.stage_to_run ns out hns
        · rw [updateStore_other _ _ _ _ he] at hj2
          exact hjobs jid2 j2 hj2
    · -- handler failure for the delivered job
      constructor
      · intro m2 hm2
        dsimp only at hm2 ⊢
        rw [hout] at hm2 ⊢
        dsimp only at hm2 ⊢
        simp only [List.append_nil] at hm2
        obtain ⟨j0, hj0, himp0⟩ := hmsgs m2 hm2
        by_cases he : m2.job_id = m.job_id
        · refine ⟨failJob e, by rw [he]; exact updateStore_self _ _ _, ?_⟩
          intro hfalse
          simp [failJob, isTerminal] at hfalse
        · refine ⟨j0, ?_, himp0⟩
          rw [updateStore_other _ _ _ _ he]
          exact hj0
      · intro jid2 j2 hj2
        dsimp only at hj2
        rw [hout] at hj2
        dsimp only at hj2
        by_cases he : jid2 = m.job_id
        · subst he
          rw [updateStore_self] at hj2
          cases hj2
          exact jobOK_failJob e
        · rw [updateStore_other _ _ _ _ he] at hj2
          exact hjobs jid2 j2 hj2

/-- The system invariant holds at every reachable state. -/
theorem sysInv_reachable (H : StageHandlers) (s : SysState) (h : Reachable H s) :
    SysInv s := by
  induction h with
  | refl => exact sysInv_init
  | tail _ hstep ih => exact sysInv_step H _ _ ih hstep

/-- The messages of the queue that belong to one job. -/
def msgsFor (jid : Nat) (msgs : List Msg) : List Msg :=
  msgs.filter (fun m => m.job_id == jid)

/-- One engine step neither touches a terminal job nor enqueues for it. -/
theorem terminal_frozen_step (H : StageHandlers) (s s2 : SysState) (jid : Nat) (j : Job)
    (hj : s.store jid = some j) (hterm : isTerminal j.stage = true)
    (hstep : EngineStep H s s2) :
    s2.store jid = some j ∧ msgsFor jid s2.msgs = msgsFor jid s.msgs := by
  cases hstep with
  | submit jid2 sub hvalid hfresh =>
    have hne : jid ≠ jid2 := by
      intro he
      rw [he, hfresh] at hj
      exact Option.noConfusion hj
    constructor
    · dsimp only
      rw [updateStore_other _ _ _ _ hne]
      exact hj
    · dsimp only
      unfold msgsFor
      rw [List.filter_append]
      have h2 : List.filter (fun m => m.job_id == jid) [(⟨jid2, .start⟩ : Msg)] = [] := by
        simp [Ne.symm hne]
      rw [h2, List.append_nil]
  | deliver m hm =>
    by_cases he : m.job_id = jid
    · have hdrop : handle H s.store m = (s.store, []) := by
        refine handle_drop H s.store m j ?_ (Or.inl hterm)
        rw [he]
        exact hj
      constructor
      · dsimp only
        rw [hdrop]
        exact hj
      · dsimp only
        rw [hdrop]
        simp [msgsFor]
    · constructor
      · dsimp only
        rw [handle_store_other H s.store m jid (Ne.symm he)]
        exact hj
      · dsimp only
        unfold msgsFor
        rw [List.filter_append]
        have h2 : List.filter (fun m2 => m2.job_id == jid) (handle H s.store m).2 = [] := by
          rw [List.filter_eq_nil_iff]
          intro m2 hm2
          have := handle_msgs_jobid H s.store m m2 hm2
          simp [this, he]
        rw [h2, List.append_nil]

/-- Along any run, a terminal job record never changes and no message is
ever enqueued for it again. -/
theorem terminal_frozen (H : StageHandlers) (s s2 : SysState) (jid : Nat) (j : Job)
    (hj : s.store jid = some j) (hterm : isTerminal j.stage = true)
    (hrun : Relation.ReflTransGen (EngineStep H) s s2) :
    s2.store jid = some j ∧ msgsFor jid s2.msgs = msgsFor jid s.msgs := by
  induction hrun with
  | refl => exact ⟨hj, rfl⟩
  | tail _ hstep ih =>
    obtain ⟨ih1, ih2⟩ := ih
    obtain ⟨h1, h2⟩ := terminal_frozen_step H _ _ jid j ih1 hterm hstep
    exact ⟨h1, by rw [h2, ih2]⟩

-- Concrete scenario used by the witnesses.

/-- Handlers that always succeed with a one-chapter result. -/
def okHandlers : StageHandlers :=
  fun _ _ => .ok ⟨[⟨1, ("intro"), 60⟩], 60⟩

/-- Handlers that always fail. -/
def badHandlers : StageHandlers :=
  fun _ _ => .error ("stage failure")

/-- A valid one-file submission. -/
def sub0 : Submission := ⟨[("doc.pdf")], [], ("file"), 0⟩

/-- The `start` message of job 0. -/
def msg0 : Msg := ⟨0, .start⟩

/-- System state after submitting job 0. -/
def sys1 : SysState := ⟨updateStore initSys.store 0 newJob, initSys.msgs ++ [msg0]⟩

/-- System state after delivering `msg0` once to the engine. -/
def sys2 (H : StageHandlers) : SysState :=
  ⟨(handle H sys1.store msg0).1, sys1.msgs ++ (handle H sys1.store msg0).2⟩

theorem sys1_reachable (H : StageHandlers) : Reachable H sys1 :=
  Relation.ReflTransGen.single (EngineStep.submit initSys 0 sub0 (by decide) rfl)

theorem sys1_step2 (H : StageHandlers) : EngineStep H sys1 (sys2 H) :=
  EngineStep.deliver sys1 msg0 (by simp [sys1, msg0])

/-- C1: over any reachable system state, one engine step moves a job's stage
only to the immediate next stage of the fixed order or from a non-terminal
stage to `failed`; otherwise the record is unchanged — never backward, never
skipping a stage, and terminal stages never change again. -/
theorem stage_monotonic_forward (H : StageHandlers) (s s2 : SysState) (jid : Nat) (j j2 : Job)
    (hreach : Reachable H s) (hstep : EngineStep H s s2)
    (hj : s.store jid = some j) (hj2 : s2.store jid = some j2) :
    j2 = j ∨ (isTerminal j.stage = false ∧
      (nextStage j.stage = some j2.stage ∨ j2.stage = .failed)) := by
  have hinv := sysInv_reachable H s hreach
  cases hstep with
  | submit jid3 sub hvalid hfresh =>
    dsimp only at hj2
    have hne : jid ≠ jid3 := by
      intro he
      rw [he, hfresh] at hj
      exact Option.noConfusion hj
    rw [updateStore_other _ _ _ _ hne, hj] at hj2
    exact Or.inl (Option.some.inj hj2).symm
  | deliver m hm =>
    dsimp only at hj2
    by_cases he : jid = m.job_id
    · subst he
      rcases handle_outcome H s.store m with hout | ⟨ja, ns, out, hja, hterm, hle, hns, hH, hout⟩ |
          ⟨ja, ns, e, hja, hterm, hle, hns, hH, hout⟩
      · rw [hout] at hj2
        dsimp only at hj2
        rw [hj] at hj2
        exact Or.inl (Option.some.inj hj2).symm
      · rw [hja] at hj
        have hja2 : ja = j := Option.some.inj hj
        subst hja2
        rw [hout] at hj2
        dsimp only at hj2
        rw [updateStore_self] at hj2
        have hj3 : j2 = advanceJob ns out := (Option.some.inj hj2).symm
        obtain ⟨jm, hjm, himp⟩ := hinv.1 m hm
        rw [hja] at hjm
        have hjm2 : ja = jm := Option.some.inj hjm
        subst hjm2
        have hgeq : stageIdx m.stage_to_run ≤ stageIdx ja.stage := himp hterm
        have heqx : stageIdx m.stage_to_run = stageIdx ja.stage := Nat.le_antisymm hgeq hle
        have hsame : m.stage_to_run = ja.stage := stageIdx_injective _ _ heqx
        refine Or.inr ⟨hterm, Or.inl ?_⟩
        rw [← hsame, hns, hj3]
        rfl
      · rw [hja] at hj
        have hja2 : ja = j := Option.some.inj hj
        subst hja2
        rw [hout] at hj2
        dsimp only at hj2
        rw [updateStore_self] at hj2
        have hj3 : j2 = failJob e := (Option.some.inj hj2).symm
        refine Or.inr ⟨hterm, Or.inr ?_⟩
        rw [hj3]
        rfl
    · rw [handle_store_other H s.store m jid he, hj] at hj2
      exact Or.inl (Option.some.inj hj2).symm

/-- Witness for C1 at a concrete run: submit job 0, then deliver its `start`
message once; the job advances from `start` to exactly `extract`. -/
theorem stage_monotonic_forward_witness :
    Reachable okHandlers sys1 ∧ EngineStep okHandlers sys1 (sys2 okHandlers) ∧
    sys1.store 0 = some newJob ∧
    (sys2 okHandlers).store 0 = some (advanceJob .extract ⟨[⟨1, ("intro"), 60⟩], 60⟩) ∧
    (advanceJob .extract ⟨[⟨1, ("intro"), 60⟩], 60⟩ = newJob ∨
      (isTerminal newJob.stage = false ∧
        (nextStage newJob.stage = some (advanceJob .extract ⟨[⟨1, ("intro"), 60⟩], 60⟩).stage ∨
          (advanceJob .extract ⟨[⟨1, ("intro"), 60⟩], 60⟩).stage = .failed))) := by
  refine ⟨sys1_reachable okHandlers, sys1_step2 okHandlers, rfl, rfl, ?_⟩
  exact stage_monotonic_forward okHandlers sys1 (sys2 okHandlers) 0 newJob
    (advanceJob .extract ⟨[⟨1, ("intro"), 60⟩], 60⟩)
    (sys1_reachable okHandlers) (sys1_step2 okHandlers) rfl rfl

/-- C2: redelivering a message after a delivery has been processed is a
no-op — the store is unchanged and nothing is enqueued; and a message whose
job id is absent from the store is dropped without error or effect. -/
theorem redelivery_idempotent (H : StageHandlers) (st : JobStore) (m : Msg) :
    handle H (handle H st m).1 m = ((handle H st m).1, []) ∧
    (st m.job_id = none → handle H st m = (st, [])) := by
  constructor
  · rcases handle_outcome H st m with hout | ⟨j, ns, out, hj, hterm, hle, hns, hH, hout⟩ |
        ⟨j, ns, e, hj, hterm, hle, hns, hH, hout⟩
    · rw [hout]
      dsimp only
      exact hout
    · rw [hout]
      dsimp only
      refine handle_drop H _ m (advanceJob ns out) (updateStore_self _ _ _) (Or.inr ?_)
      have hidx : stageIdx ns = stageIdx m.stage_to_run + 1 := nextStage_idx _ _ hns
      show stageIdx m.stage_to_run < stageIdx (advanceJob ns out).stage
      simp only [advanceJob]
      omega
    · rw [hout]
      dsimp only
      exact handle_drop H _ m (failJob e) (updateStore_self _ _ _) (Or.inl rfl)
  · intro h
    exact handle_absent H st m h

/-- Witness for C2: after the first delivery of job 0's `start` message the
second delivery changes nothing, and a message for the absent job 7 is
dropped. -/
theorem redelivery_idempotent_witness :
    handle okHandlers (handle okHandlers sys1.store msg0).1 msg0 =
      ((handle okHandlers sys1.store msg0).1, []) ∧
    (sys1.store 7 = none ∧
      handle okHandlers sys1.store ⟨7, .start⟩ = (sys1.store, [])) := by
  refine ⟨(redelivery_idempotent okHandlers sys1.store msg0).1, rfl, ?_⟩
  exact (redelivery_idempotent okHandlers sys1.store ⟨7, .start⟩).2 rfl

/-- C4: when the stage handler invoked by `handle` fails, the job is
persisted as `failed` with progress -1 and the handler's message, the
invocation enqueues nothing, and along every later run the job stays in
that failed record and no message is ever enqueued for it again. -/
theorem handler_failure_terminal (H : StageHandlers) (s s3 : SysState) (m : Msg) (j : Job)
    (e : String)
    (hreach : Reachable H s) (hm : m ∈ s.msgs)
    (hj : s.store m.job_id = some j)
    (hterm : isTerminal j.stage = false)
    (hrun : stageIdx j.stage ≤ stageIdx m.stage_to_run)
    (hfail : H m.stage_to_run j = .error e)
    (hs3 : Relation.ReflTransGen (EngineStep H)
      ⟨(handle H s.store m).1, s.msgs ++ (handle H s.store m).2⟩ s3) :
    handle H s.store m = (updateStore s.store m.job_id (failJob e), []) ∧
    failJob e = { stage := .failed, progress := -1, result := none, error := some e } ∧
    s3.store m.job_id = some (failJob e) ∧
    msgsFor m.job_id s3.msgs = msgsFor m.job_id s.msgs := by
  have hinv := sysInv_reachable H s hreach
  obtain ⟨jm, hjm, himp⟩ := hinv.1 m hm
  rw [hj] at hjm
  have hjm2 : j = jm := Option.some.inj hjm
  subst hjm2
  have hsame : m.stage_to_run = j.stage :=
    stageIdx_injective _ _ (Nat.le_antisymm (himp hterm) hrun)
  have hns : (nextStage m.stage_to_run).isSome := by
    rw [hsame]
    exact nextStage_of_nonterminal _ hterm
  obtain ⟨ns, hns2⟩ := Option.isSome_iff_exists.1 hns
  have hd : ¬ (isTerminal j.stage = true ∨ stageIdx m.stage_to_run < stageIdx j.stage) := by
    rw [hterm]
    simp
    omega
  have hout : handle H s.store m = (updateStore s.store m.job_id (failJob e), []) := by
    rw [handle_run H s.store m j ns hj hd hns2]
    unfold runStage
    rw [hfail]
  refine ⟨hout, rfl, ?_⟩
  rw [hout] at hs3
  dsimp only at hs3
  have hfrozen := terminal_frozen H _ s3 m.job_id (failJob e)
    (updateStore_self _ _ _) rfl hs3
  obtain ⟨h1, h2⟩ := hfrozen
  refine ⟨h1, ?_⟩
  rw [h2]
  dsimp only
  rw [List.append_nil]

/-- Witness for C4: deliver job 0's `start` message to failing handlers; the
job lands at `failed` with progress -1 and the message, stays there, and its
message set never grows. -/
theorem handler_failure_terminal_witness :
    handle badHandlers sys1.store msg0 =
      (updateStore sys1.store 0 (failJob ("stage failure")), []) ∧
    failJob ("stage failure") =
      { stage := .failed, progress := -1, result := none, error := some ("stage failure") } ∧
    (sys2 badHandlers).store 0 = some (failJob ("stage failure")) ∧
    msgsFor 0 (sys2 badHandlers).msgs = msgsFor 0 sys1.msgs := by
  have h := handler_failure_terminal badHandlers sys1 (sys2 badHandlers) msg0 newJob
    ("stage failure") (sys1_reachable badHandlers) (by simp [sys1, msg0]) rfl rfl
    (Nat.le_refl _) rfl Relation.ReflTransGen.refl
  exact h

/-- C8: in every reachable system state, every stored job satisfies exactly
one of: result populated and error empty (stage `completed`), error
populated and result empty (stage `failed`), or both empty (non-terminal). -/
theorem result_error_gate (H : StageHandlers) (s : SysState) (jid : Nat) (j : Job)
    (hreach : Reachable H s) (hj : s.store jid = some j) :
    (j.result.isSome = true ∧ j.error = none ∧ j.stage = .completed) ∨
    (j.error.isSome = true ∧ j.result = none ∧ j.stage = .failed) ∨
    (j.result = none ∧ j.error = none ∧ isTerminal j.stage = false) :=
  (sysInv_reachable H s hreach).2 jid j hj

/-- Witness for C8 at the freshly submitted job 0: both fields empty at the
non-terminal stage `start`. -/
theorem result_error_gate_witness :
    (newJob.result.isSome = true ∧ newJob.error = none ∧ newJob.stage = .completed) ∨
    (newJob.error.isSome = true ∧ newJob.result = none ∧ newJob.stage = .failed) ∨
    (newJob.result = none ∧ newJob.error = none ∧ isTerminal newJob.stage = false) :=
  result_error_gate okHandlers sys1 0 newJob (sys1_reachable okHandlers) rfl


/-- `validateSubmission` accepts exactly the submissions with at least one
and at most four inputs whose main designation points into the designated
list. -/
theorem validateSubmission_none_iff (sub : Submission) :
    validateSubmission sub = none ↔
      (sub.files.length + sub.links.length ≠ 0 ∧
       sub.files.length + sub.links.length ≤ 4 ∧
       ((sub.main_kind = ("file") ∧ sub.main_index < sub.files.length) ∨
        (sub.main_kind = ("link") ∧ sub.main_index < sub.links.length))) := by
  unfold validateSubmission
  split_ifs with h1 h2 h3 h4 h5 h6 <;> simp_all

/-- C7: `submitJob` rejects a submission with a validation error — creating
no job — when the inputs are empty, there are more than 4 content
references, or the main-source designation is invalid (kind neither `file`
nor `link`, or index out of range of the designated list); on a valid
submission it persists a fresh job at stage `start` with progress 0 and
enqueues exactly the one message `{job_id, start}`. -/
theorem submit_validation (st : JobStore) (msgs : List Msg) (jid : Nat) (sub : Submission) :
    ((sub.files.length + sub.links.length = 0 ∨
      4 < sub.files.length + sub.links.length ∨
      (sub.main_kind ≠ ("file") ∧ sub.main_kind ≠ ("link")) ∨
      (sub.main_kind = ("file") ∧ sub.files.length ≤ sub.main_index) ∨
      (sub.main_kind = ("link") ∧ sub.links.length ≤ sub.main_index)) →
      ∃ e, submitJob st msgs jid sub = .error e) ∧
    (validateSubmission sub = none →
      submitJob st msgs jid sub =
        .ok (updateStore st jid { stage := .start, progress := 0, result := none, error := none },
          msgs ++ [⟨jid, .start⟩])) := by
  constructor
  · intro hbad
    have hne : validateSubmission sub ≠ none := by
      intro h0
      rw [validateSubmission_none_iff] at h0
      obtain ⟨hc1, hc2, hc3⟩ := h0
      have hfl : (("file") : String) ≠ ("link") := by decide
      rcases hbad with h | h | h | h | h
      · exact hc1 h
      · omega
      · rcases hc3 with ⟨hk, _⟩ | ⟨hk, _⟩
        · exact h.1 hk
        · exact h.2 hk
      · rcases hc3 with ⟨_, hi⟩ | ⟨hk, _⟩
        · omega
        · rw [h.1] at hk
          exact hfl hk
      · rcases hc3 with ⟨hk, _⟩ | ⟨_, hi⟩
        · rw [h.1] at hk
          exact hfl hk.symm
        · omega
    obtain ⟨e, he⟩ := Option.ne_none_iff_exists.1 hne
    refine ⟨e, ?_⟩
    unfold submitJob
    rw [← he]
  · intro hval
    unfold submitJob
    rw [hval]
    rfl

/-- Witness for C7: the one-file submission `sub0` is accepted and persisted
at `start`, while the empty submission is rejected. -/
theorem submit_validation_witness :
    (validateSubmission sub0 = none ∧
      submitJob initSys.store [] 0 sub0 =
        .ok (updateStore initSys.store 0
              { stage := .start, progress := 0, result := none, error := none },
          [] ++ [⟨0, .start⟩])) ∧
    ((⟨[], [], ("file"), 0⟩ : Submission).files.length +
        (⟨[], [], ("file"), 0⟩ : Submission).links.length = 0 ∧
      ∃ e, submitJob initSys.store [] 0 ⟨[], [], ("file"), 0⟩ = .error e) := by
  refine ⟨⟨by decide, (submit_validation initSys.store [] 0 sub0).2 (by decide)⟩, rfl, ?_⟩
  exact (submit_validation initSys.store [] 0 ⟨[], [], ("file"), 0⟩).1 (Or.inl rfl)

/-- The `current_step` vocabulary of the status query, translated from the
`CurrentStep` union type of the TypeScript guide: `start`, the two Korean
upload sub-steps (`파일 업로드 시작` and `파일 업로드 완료 및 변환 시작`),
`extract_complete`, `combine_complete`, `script_complete`, `audio_complete`,
`merge_complete`, `completed` and `error`. -/
inductive CurrentStep
  | start
  | fileUploadStart
  | fileUploadDone
  | extractComplete
  | combineComplete
  | scriptComplete
  | audioComplete
  | mergeComplete
  | completed
  | error
deriving DecidableEq, Repr, Fintype

/-- The progress table of the status query, translated row by row from the
`진행 상태 매핑` table of `docs/API_DOCUMENT.md`: start→0, upload start→5,
upload done→10, extract_complete→30, combine_complete→40,
script_complete→60, audio_complete→80, merge_complete→90, completed→100,
error→-1. -/
def progressOf : CurrentStep → Int
  | .start => 0
  | .fileUploadStart => 5
  | .fileUploadDone => 10
  | .extractComplete => 30
  | .combineComplete => 40
  | .scriptComplete => 60
  | .audioComplete => 80
  | .mergeComplete => 90
  | .completed => 100
  | .error => -1

/-- C3 counterexample: the documented progress table is not confined to the
claimed value set {0, 30, 40, 60, 80, 90, 100, -1} — the upload sub-step
`파일 업로드 시작` maps to 5, so a status query can observe a progress value
outside the claimed table. -/
theorem progress_table_counterexample :
    progressOf CurrentStep.fileUploadStart = 5 ∧
    ¬ (∀ s : CurrentStep,
        progressOf s ∈ ([0, 30, 40, 60, 80, 90, 100, -1] : List Int)) := by
  constructor
  · rfl
  · intro h
    have h2 := h CurrentStep.fileUploadStart
    simp [progressOf] at h2

/-- C3 amended: progress is a pure function of the documented `current_step`
given exactly by the table of `docs/API_DOCUMENT.md` — including the upload
sub-steps at 5 and 10 and with `error` carrying -1; every observable
progress value lies in {-1, 0, 5, 10, 30, 40, 60, 80, 90, 100}, and there is
no `transcript` step (the order ends `merge_complete`→90, `completed`→100). -/
theorem progress_table_doc :
    (progressOf .start = 0 ∧ progressOf .fileUploadStart = 5 ∧
     progressOf .fileUploadDone = 10 ∧ progressOf .extractComplete = 30 ∧
     progressOf .combineComplete = 40 ∧ progressOf .scriptComplete = 60 ∧
     progressOf .audioComplete = 80 ∧ progressOf .mergeComplete = 90 ∧
     progressOf .completed = 100 ∧ progressOf .error = -1) ∧
    (∀ s : CurrentStep,
      progressOf s ∈ ([-1, 0, 5, 10, 30, 40, 60, 80, 90, 100] : List Int)) := by
  constructor
  · exact ⟨rfl, rfl, rfl, rfl, rfl, rfl, rfl, rfl, rfl, rfl⟩
  · decide

/-- A parsed `Range` header: explicit interval, open-ended start, or suffix
length. -/
inductive RangeSpec
  | interval (s e : Nat)
  | fromStart (s : Nat)
  | suffix (n : Nat)
deriving DecidableEq, Repr

/-- Digit parsing of one range bound, as `String.toNat?` behaves on the
corresponding substring: empty or non-numeric text gives nothing. -/
def digitsToNat? (l : List Char) : Option Nat :=
  if l = [] then none
  else if l.all Char.isDigit then
    some (l.foldl (fun acc c => acc * 10 + (c.toNat - 48)) 0)
  else none

/-- Split of the header body at every dash, as `String.splitOn` behaves on
the corresponding text. -/
def splitOnDash : List Char → List (List Char)
  | [] => [[]]
  | c :: rest =>
      let r := splitOnDash rest
      if c = '-' then [] :: r
      else
        match r with
        | [] => [[c]]
        | hd :: tl => (c :: hd) :: tl

/-- Modelled from the spec: §4.3 Range-header parsing of the missing
streaming-server sources, per the request forms of `docs/API_DOCUMENT.md`
(`bytes=start-end`, `bytes=start-`, `bytes=-N`); anything else is
malformed.  Header text is carried as a character list. -/
def parseRange (h : List Char) : Option RangeSpec :=
  if h.take 6 = ['b', 'y', 't', 'e', 's', '='] then
    match splitOnDash (h.drop 6) with
    | [a, b] =>
        match digitsToNat? a, digitsToNat? b with
        | some s, some e => some (.interval s e)
        | some s, none => if b = [] then some (.fromStart s) else none
        | none, some n => if a = [] then some (.suffix n) else none
        | none, none => none
    | _ => none
  else none

/-- Modelled from the spec: §4.3 range resolution of the missing
streaming-server sources — clamp an explicit end and an open end to
`total - 1`, compute a suffix from `total - n` (natural subtraction, i.e.
clamped at 0), and reject ranges starting at or past the end of the file,
empty suffixes, and suffixes of an empty file. -/
def resolveRange (total : Nat) : RangeSpec → Option (Nat × Nat)
  | .interval s e =>
      if s < total ∧ s ≤ e then some (s, min e (total - 1)) else none
  | .fromStart s => if s < total then some (s, total - 1) else none
  | .suffix n => if n = 0 ∨ total = 0 then none else some (total - n, total - 1)

/-- The `Content-Range` response header: a satisfied byte slice
`bytes s-e/total`, or the unsatisfied form `bytes */total`. -/
inductive ContentRangeHdr
  | slice (s e total : Nat)
  | unsat (total : Nat)
deriving DecidableEq, Repr

/-- An HTTP response of the streaming interface, with the fields the
specification constrains (body abstracted to a byte list). -/
structure HttpResponse where
  status : Nat
  contentLength : Nat
  contentRange : Option ContentRangeHdr
  acceptRanges : Bool
  errorCode : Option String
  body : List Nat
deriving DecidableEq, Repr

/-- Status 200 full-body response. -/
def fullResponse (file : List Nat) : HttpResponse :=
  { status := 200, contentLength := file.length, contentRange := none,
    acceptRanges := true, errorCode := none, body := file }

/-- Status 416 response carrying `Content-Range: bytes */total`. -/
def notSatisfiableResponse (total : Nat) : HttpResponse :=
  { status := 416, contentLength := 0, contentRange := some (.unsat total),
    acceptRanges := true, errorCode := none, body := [] }

/-- Status 206 partial-content response for the byte window `[s, e]`. -/
def sliceResponse (file : List Nat) (s e : Nat) : HttpResponse :=
  { status := 206, contentLength := e - s + 1,
    contentRange := some (.slice s e file.length), acceptRanges := true,
    errorCode := none, body := (file.drop s).take (e - s + 1) }

/-- Modelled from the spec: §4.3 of the missing streaming-server sources —
no `Range` header yields the full 200 response; a malformed or unsatisfiable
range yields 416 with `Content-Range: bytes */total`; a satisfiable range
yields the 206 slice. -/
def serveFile (file : List Nat) (hdr : Option (List Char)) : HttpResponse :=
  match hdr with
  | none => fullResponse file
  | some h =>
      match parseRange h with
      | none => notSatisfiableResponse file.length
      | some spec =>
          match resolveRange file.length spec with
          | none => notSatisfiableResponse file.length
          | some (s, e) => sliceResponse file s e

/-- An error response of the audio endpoint with its documented error code. -/
def errorResponse (status : Nat) (code : String) : HttpResponse :=
  { status := status, contentLength := 0, contentRange := none,
    acceptRanges := false, errorCode := some code, body := [] }

/-- Modelled from the spec: §4.3/§6 audio retrieval of the missing server
sources, with the error codes of the repository's error-code guide — absent
session → 404 SESSION_NOT_FOUND; session not `completed` → 400
PROCESSING_FAILED (checked before the chapter); chapter other than 1 → 404
NOT_FOUND; unreadable file → 500 INTERNAL_ERROR; otherwise byte-range
serving of the output file. -/
def audioEndpoint (st : JobStore) (jid chapter : Nat) (file : Option (List Nat))
    (hdr : Option (List Char)) : HttpResponse :=
  match st jid with
  | none => errorResponse 404 ("SESSION_NOT_FOUND")
  | some j =>
      if j.stage ≠ .completed then errorResponse 400 ("PROCESSING_FAILED")
      else if chapter ≠ 1 then errorResponse 404 ("NOT_FOUND")
      else
        match file with
        | none => errorResponse 500 ("INTERNAL_ERROR")
        | some f => serveFile f hdr

/-- C5: byte-range semantics of the streaming server over a file of size S.
An explicit range with start ≤ end < S yields 206 with exactly
end-start+1 body bytes, `Content-Range: bytes start-end/S` and matching
`Content-Length`; an open-ended range with start < S is clamped to end
S - 1; a suffix of N ≥ 1 bytes serves from S - N (clamped at 0, so a
suffix longer than the file serves the whole file); a malformed header or
a start at or past S yields 416 with `Content-Range: bytes */S`; no header
yields 200 with the full body, `Accept-Ranges: bytes` and
`Content-Length: S`. -/
theorem range_request_semantics (file : List Nat) (hs : List Char) (s e n : Nat) :
    (parseRange hs = some (.interval s e) → s ≤ e → e < file.length →
      serveFile file (some hs) = sliceResponse file s e ∧
      (serveFile file (some hs)).status = 206 ∧
      (serveFile file (some hs)).body.length = e - s + 1 ∧
      (serveFile file (some hs)).contentRange = some (.slice s e file.length) ∧
      (serveFile file (some hs)).contentLength = e - s + 1) ∧
    (parseRange hs = some (.fromStart s) → s < file.length →
      serveFile file (some hs) = sliceResponse file s (file.length - 1) ∧
      (serveFile file (some hs)).status = 206) ∧
    (parseRange hs = some (.suffix n) → 0 < n → 0 < file.length →
      serveFile file (some hs) = sliceResponse file (file.length - n) (file.length - 1) ∧
      (serveFile file (some hs)).status = 206 ∧
      (file.length ≤ n → (serveFile file (some hs)).body = file)) ∧
    (parseRange hs = none →
      serveFile file (some hs) = notSatisfiableResponse file.length ∧
      (serveFile file (some hs)).status = 416 ∧
      (serveFile file (some hs)).contentRange = some (.unsat file.length)) ∧
    (parseRange hs = some (.interval s e) → file.length ≤ s →
      serveFile file (some hs) = notSatisfiableResponse file.length) ∧
    (parseRange hs = some (.fromStart s) → file.length ≤ s →
      serveFile file (some hs) = notSatisfiableResponse file.length) ∧
    (serveFile file none = fullResponse file ∧
      (serveFile file none).status = 200 ∧
      (serveFile file none).contentLength = file.length ∧
      (serveFile file none).acceptRanges = true ∧
      (serveFile file none).body = file) := by
  refine ⟨?_, ?_, ?_, ?_, ?_, ?_, ?_⟩
  · intro hp h1 h2
    have hmin : min e (file.length - 1) = e := by omega
    have hres : resolveRange file.length (.interval s e) = some (s, e) := by
      simp only [resolveRange]
      rw [if_pos ⟨by omega, h1⟩, hmin]
    have heq : serveFile file (some hs) = sliceResponse file s e := by
      simp [serveFile, hp, hres]
    refine ⟨heq, by rw [heq]; rfl, ?_, by rw [heq]; rfl, by rw [heq]; rfl⟩
    rw [heq]
    show ((file.drop s).take (e - s + 1)).length = e - s + 1
    rw [List.length_take, List.length_drop]
    omega
  · intro hp h1
    have hres : resolveRange file.length (.fromStart s) = some (s, file.length - 1) := by
      simp only [resolveRange]
      rw [if_pos h1]
    have heq : serveFile file (some hs) = sliceResponse file s (file.length - 1) := by
      simp [serveFile, hp, hres]
    exact ⟨heq, by rw [heq]; rfl⟩
  · intro hp h1 h2
    have hcond : ¬ (n = 0 ∨ file.length = 0) := by
      rintro (h | h) <;> omega
    have hres : resolveRange file.length (.suffix n) =
        some (file.length - n, file.length - 1) := by
      simp only [resolveRange]
      rw [if_neg hcond]
    have heq : serveFile file (some hs) =
        sliceResponse file (file.length - n) (file.length - 1) := by
      simp [serveFile, hp, hres]
    refine ⟨heq, by rw [heq]; rfl, ?_⟩
    intro hkn
    rw [heq]
    show ((file.drop (file.length - n)).take
      (file.length - 1 - (file.length - n) + 1)) = file
    have h0 : file.length - n = 0 := by omega
    rw [h0, List.drop_zero]
    have hcount : file.length - 1 - 0 + 1 = file.length := by omega
    rw [hcount]
    simp
  · intro hp
    have heq : serveFile file (some hs) = notSatisfiableResponse file.length := by
      simp [serveFile, hp]
    exact ⟨heq, by rw [heq]; rfl, by rw [heq]; rfl⟩
  · intro hp h1
    have hcond : ¬ (s < file.length ∧ s ≤ e) := by
      rintro ⟨hc, _⟩
      omega
    have hres : resolveRange file.length (.interval s e) = none := by
      simp only [resolveRange]
      rw [if_neg hcond]
    simp [serveFile, hp, hres]
  · intro hp h1
    have hres : resolveRange file.length (.fromStart s) = none := by
      simp only [resolveRange]
      rw [if_neg (by omega)]
    simp [serveFile, hp, hres]
  · exact ⟨rfl, rfl, rfl, rfl, rfl⟩

/-- Witness for C5 on the five-byte file [10, 20, 30, 40, 50]: the range
1-3 yields the three middle bytes; an open range from 2 is clamped; the
suffix of 10 bytes yields the whole file; a malformed header and a start
past the end yield 416; no header yields the 200 full response. -/
theorem range_request_semantics_witness :
    (parseRange ("bytes=1-3").toList = some (.interval 1 3) ∧
      serveFile [10, 20, 30, 40, 50] (some ("bytes=1-3").toList) =
        sliceResponse [10, 20, 30, 40, 50] 1 3 ∧
      (serveFile [10, 20, 30, 40, 50] (some ("bytes=1-3").toList)).body.length = 3) ∧
    (parseRange ("bytes=2-").toList = some (.fromStart 2) ∧
      serveFile [10, 20, 30, 40, 50] (some ("bytes=2-").toList) =
        sliceResponse [10, 20, 30, 40, 50] 2 4) ∧
    (parseRange ("bytes=-10").toList = some (.suffix 10) ∧
      (serveFile [10, 20, 30, 40, 50] (some ("bytes=-10").toList)).body =
        [10, 20, 30, 40, 50]) ∧
    (parseRange ("bytes=abc").toList = none ∧
      serveFile [10, 20, 30, 40, 50] (some ("bytes=abc").toList) =
        notSatisfiableResponse 5) ∧
    (parseRange ("bytes=9-").toList = some (.fromStart 9) ∧
      serveFile [10, 20, 30, 40, 50] (some ("bytes=9-").toList) =
        notSatisfiableResponse 5) ∧
    serveFile [10, 20, 30, 40, 50] none = fullResponse [10, 20, 30, 40, 50] := by
  have h13 := range_request_semantics [10, 20, 30, 40, 50] ("bytes=1-3").toList 1 3 0
  have h2o := range_request_semantics [10, 20, 30, 40, 50] ("bytes=2-").toList 2 0 0
  have hsf := range_request_semantics [10, 20, 30, 40, 50] ("bytes=-10").toList 0 0 10
  have hbad := range_request_semantics [10, 20, 30, 40, 50] ("bytes=abc").toList 0 0 0
  have h9 := range_request_semantics [10, 20, 30, 40, 50] ("bytes=9-").toList 9 0 0
  refine ⟨⟨by decide, (h13.1 (by decide) (by decide) (by decide)).1,
      (h13.1 (by decide) (by decide) (by decide)).2.2.1⟩,
    ⟨by decide, (h2o.2.1 (by decide) (by decide)).1⟩,
    ⟨by decide, (hsf.2.2.1 (by decide) (by decide) (by decide)).2.2 (by decide)⟩,
    ⟨by decide, (hbad.2.2.2.1 (by decide)).1⟩,
    ⟨by decide, h9.2.2.2.2.2.1 (by decide) (by decide)⟩,
    (h13.2.2.2.2.2.2).1⟩

/-- C6: any audio request for a job whose stored stage is not `completed`
is rejected with 400 PROCESSING_FAILED, for every chapter, Range header and
file presence — the file may or may not exist; conversely, a 200 or 206
response is only ever produced when the stored job exists and its stage is
`completed`. -/
theorem streaming_requires_completed (st : JobStore) (jid chapter : Nat)
    (file : Option (List Nat)) (hdr : Option (List Char)) :
    (∀ j, st jid = some j → j.stage ≠ .completed →
      audioEndpoint st jid chapter file hdr = errorResponse 400 ("PROCESSING_FAILED")) ∧
    ((audioEndpoint st jid chapter file hdr).status = 200 ∨
        (audioEndpoint st jid chapter file hdr).status = 206 →
      ∃ j, st jid = some j ∧ j.stage = .completed) := by
  constructor
  · intro j hj hne
    simp [audioEndpoint, hj, hne]
  · intro hok
    cases hst : st jid with
    | none =>
      rw [show audioEndpoint st jid chapter file hdr = errorResponse 404 ("SESSION_NOT_FOUND")
        from by simp [audioEndpoint, hst]] at hok
      rcases hok with h | h <;> simp [errorResponse] at h
    | some j =>
      by_cases hc : j.stage = Stage.completed
      · exact ⟨j, rfl, hc⟩
      · rw [show audioEndpoint st jid chapter file hdr = errorResponse 400 ("PROCESSING_FAILED")
          from by simp [audioEndpoint, hst, hc]] at hok
        rcases hok with h | h <;> simp [errorResponse] at h

/-- Witness for C6: a job stuck at `script` with an existing output file is
rejected with PROCESSING_FAILED, and the same request on the absent job 9
yields no success status. -/
theorem streaming_requires_completed_witness :
    audioEndpoint (updateStore initSys.store 0
        { stage := .script, progress := 60, result := none, error := none })
      0 1 (some [10, 20, 30]) none = errorResponse 400 ("PROCESSING_FAILED") := by
  exact (streaming_requires_completed (updateStore initSys.store 0
      { stage := .script, progress := 60, result := none, error := none })
    0 1 (some [10, 20, 30]) none).1
    { stage := .script, progress := 60, result := none, error := none } rfl (by decide)

/-- Modelled from the spec: §4.2 `compareAndSetStage` of the missing job
store sources — write the new record only when the stored stage still equals
the expected one, reporting whether the write happened. -/
def compareAndSetStage (st : JobStore) (jid : Nat) (expected : Stage) (j2 : Job) :
    JobStore × Bool :=
  match st jid with
  | some j => if j.stage = expected then (updateStore st jid j2, true) else (st, false)
  | none => (st, false)

/-- Modelled from the spec: §4.1 step 4's persistence of one worker's
handler outcome through the compare-and-swap — on a winning write enqueue
the next stage message (nothing when the new stage is `completed`), on a
losing write discard the result silently and enqueue nothing. -/
def commitOutcome (st : JobStore) (jid : Nat) (expected : Stage) (j2 : Job) :
    JobStore × List Msg × Bool :=
  match compareAndSetStage st jid expected j2 with
  | (st2, true) => (st2, if j2.stage = .completed then [] else [⟨jid, j2.stage⟩], true)
  | (st2, false) => (st2, [], false)

/-- Persistence by unconditional overwrite, the variant the spec rules out. -/
def overwriteOutcome (st : JobStore) (jid : Nat) (j2 : Job) : JobStore × List Msg :=
  (updateStore st jid j2, if j2.stage = .completed then [] else [⟨jid, j2.stage⟩])

/-- C9: two concurrently delivered duplicates of the same stage message both
read the job at stage `j.stage` and both compute the advanced record; the
first compare-and-swap commit wins, persists the advance and enqueues the
single next-stage message, while the second writer's compare-and-swap
detects that the stage has moved and discards its result — same store, no
message; an unconditional overwrite in the second writer's place would
instead re-persist and re-enqueue the duplicate next-stage message. -/
theorem cas_duplicate_write (st : JobStore) (jid : Nat) (j : Job) (out : ResultData)
    (ns : Stage) (hj : st jid = some j) (hns : nextStage j.stage = some ns) :
    (commitOutcome st jid j.stage (advanceJob ns out)).2.2 = true ∧
    (commitOutcome st jid j.stage (advanceJob ns out)).1 jid = some (advanceJob ns out) ∧
    (ns ≠ .completed →
      (commitOutcome st jid j.stage (advanceJob ns out)).2.1 = [⟨jid, ns⟩]) ∧
    (ns = .completed → (commitOutcome st jid j.stage (advanceJob ns out)).2.1 = []) ∧
    (commitOutcome (commitOutcome st jid j.stage (advanceJob ns out)).1 jid j.stage
        (advanceJob ns out)).2.2 = false ∧
    (commitOutcome (commitOutcome st jid j.stage (advanceJob ns out)).1 jid j.stage
        (advanceJob ns out)).1 =
      (commitOutcome st jid j.stage (advanceJob ns out)).1 ∧
    (commitOutcome (commitOutcome st jid j.stage (advanceJob ns out)).1 jid j.stage
        (advanceJob ns out)).2.1 = [] ∧
    (ns ≠ .completed →
      (overwriteOutcome (commitOutcome st jid j.stage (advanceJob ns out)).1 jid
          (advanceJob ns out)).2 = [⟨jid, ns⟩]) := by
  have hcas1 : compareAndSetStage st jid j.stage (advanceJob ns out) =
      (updateStore st jid (advanceJob ns out), true) := by
    simp only [compareAndSetStage]
    rw [hj]
    dsimp only
    rw [if_pos rfl]
  have hc1 : commitOutcome st jid j.stage (advanceJob ns out) =
      (updateStore st jid (advanceJob ns out),
        if (advanceJob ns out).stage = .completed then [] else [⟨jid, (advanceJob ns out).stage⟩],
        true) := by
    simp only [commitOutcome]
    rw [hcas1]
  have hne : (advanceJob ns out).stage ≠ j.stage := by
    show ns ≠ j.stage
    exact nextStage_ne_self _ _ hns
  have hcas2 : compareAndSetStage (updateStore st jid (advanceJob ns out)) jid j.stage
      (advanceJob ns out) = (updateStore st jid (advanceJob ns out), false) := by
    simp only [compareAndSetStage]
    rw [updateStore_self]
    dsimp only
    rw [if_neg hne]
  have hc2 : commitOutcome (updateStore st jid (advanceJob ns out)) jid j.stage
      (advanceJob ns out) = (updateStore st jid (advanceJob ns out), [], false) := by
    simp only [commitOutcome]
    rw [hcas2]
  rw [hc1]
  dsimp only
  refine ⟨rfl, updateStore_self _ _ _, ?_, ?_, ?_, ?_, ?_, ?_⟩
  · intro hc
    show (if ns = Stage.completed then ([] : List Msg) else [⟨jid, ns⟩]) = [⟨jid, ns⟩]
    rw [if_neg hc]
  · intro hc
    show (if ns = Stage.completed then ([] : List Msg) else [⟨jid, ns⟩]) = []
    rw [if_pos hc]
  · rw [hc2]
  · rw [hc2]
  · rw [hc2]
  · intro hc
    show (if ns = Stage.completed then ([] : List Msg) else [⟨jid, ns⟩]) = [⟨jid, ns⟩]
    rw [if_neg hc]

/-- Witness for C9: the duplicate commit race on job 0 at stage `start`
advancing to `extract`: first commit wins and enqueues the `extract`
message, the second compare-and-swap commit is a silent no-op, while an
unconditional overwrite would enqueue the message again. -/
theorem cas_duplicate_write_witness :
    (commitOutcome sys1.store 0 newJob.stage
        (advanceJob .extract ⟨[⟨1, ("intro"), 60⟩], 60⟩)).2.2 = true ∧
    (commitOutcome (commitOutcome sys1.store 0 newJob.stage
          (advanceJob .extract ⟨[⟨1, ("intro"), 60⟩], 60⟩)).1 0 newJob.stage
        (advanceJob .extract ⟨[⟨1, ("intro"), 60⟩], 60⟩)).2.2 = false ∧
    (commitOutcome sys1.store 0 newJob.stage
        (advanceJob .extract ⟨[⟨1, ("intro"), 60⟩], 60⟩)).2.1 = [⟨0, .extract⟩] ∧
    (commitOutcome (commitOutcome sys1.store 0 newJob.stage
          (advanceJob .extract ⟨[⟨1, ("intro"), 60⟩], 60⟩)).1 0 newJob.stage
        (advanceJob .extract ⟨[⟨1, ("intro"), 60⟩], 60⟩)).2.1 = [] := by
  have h := cas_duplicate_write sys1.store 0 newJob ⟨[⟨1, ("intro"), 60⟩], 60⟩
    .extract rfl rfl
  exact ⟨h.1, h.2.2.2.2.1, h.2.2.1 (by decide), h.2.2.2.2.2.2.1⟩

/-- A row of the `output_contents` table, as selected by the cleanup edge
function of `supabase/functions/cleanup_expired_outputs/index.ts`
(`id, audio_path, script_path, expires_at`); timestamps abstracted to
naturals ordered as the ISO strings compare. -/
structure OutputRow where
  id : Nat
  audio_path : Option String
  script_path : Option String
  expires_at : Nat
deriving DecidableEq, Repr

/-- A row of the `output_images` table (`id, img_path, expires_at`). -/
structure ImageRow where
  id : Nat
  img_path : Option String
  expires_at : Nat
deriving DecidableEq, Repr

/-- Observable actions of one cleanup invocation: removal of a storage
object, deletion of an `output_contents` row, deletion of an
`output_images` row. -/
inductive CleanupEvent
  | removeObject (path : String)
  | deleteContentRow (id : Nat)
  | deleteImageRow (id : Nat)
deriving DecidableEq, Repr

/-- Per-row actions of the `output_contents` loop of the cleanup function:
remove the audio object when present, then the script object when present,
then delete the row. -/
def contentRowEvents (r : OutputRow) : List CleanupEvent :=
  (match r.audio_path with
    | some p => [.removeObject p]
    | none => []) ++
  (match r.script_path with
    | some p => [.removeObject p]
    | none => []) ++
  [.deleteContentRow r.id]

/-- Per-row actions of the `output_images` loop: remove the image object
when present, then delete the row. -/
def imageRowEvents (r : ImageRow) : List CleanupEvent :=
  (match r.img_path with
    | some p => [.removeObject p]
    | none => []) ++
  [.deleteImageRow r.id]

/-- The tables the cleanup function touches. -/
structure CleanupDB where
  output_contents : List OutputRow
  output_images : List ImageRow
deriving DecidableEq, Repr

/-- The cleanup edge function, translated from
`supabase/functions/cleanup_expired_outputs/index.ts`: one timestamp `now`
is captured at entry; every `output_contents` row with `expires_at < now`
has its storage objects removed and is then deleted, in table order; then
the same for `output_images`.  Returns the remaining tables and the ordered
action trace. -/
def cleanup (now : Nat) (db : CleanupDB) : CleanupDB × List CleanupEvent :=
  ( { output_contents := db.output_contents.filter (fun r => decide (¬ r.expires_at < now))
      output_images := db.output_images.filter (fun r => decide (¬ r.expires_at < now)) },
    (db.output_contents.filter (fun r => decide (r.expires_at < now))).flatMap
        contentRowEvents ++
      (db.output_images.filter (fun r => decide (r.expires_at < now))).flatMap
        imageRowEvents )

/-- A content-row deletion only appears in a row's own action block. -/
theorem deleteContent_mem_contentRowEvents (r : OutputRow) (i : Nat)
    (h : CleanupEvent.deleteContentRow i ∈ contentRowEvents r) : i = r.id := by
  unfold contentRowEvents at h
  cases hap : r.audio_path <;> cases hsp : r.script_path <;>
    rw [hap, hsp] at h <;> simp at h <;> exact h

/-- No content-row deletion appears in an image row's action block. -/
theorem deleteContent_not_mem_imageRowEvents (r : ImageRow) (i : Nat) :
    CleanupEvent.deleteContentRow i ∉ imageRowEvents r := by
  intro h
  unfold imageRowEvents at h
  cases hip : r.img_path <;> rw [hip] at h <;> simp at h

/-- An image-row deletion only appears in an image row's own action block. -/
theorem deleteImage_mem_imageRowEvents (r : ImageRow) (i : Nat)
    (h : CleanupEvent.deleteImageRow i ∈ imageRowEvents r) : i = r.id := by
  unfold imageRowEvents at h
  cases hip : r.img_path <;> rw [hip] at h <;> simp at h <;> exact h

/-- No image-row deletion appears in a content row's action block. -/
theorem deleteImage_not_mem_contentRowEvents (r : OutputRow) (i : Nat) :
    CleanupEvent.deleteImageRow i ∉ contentRowEvents r := by
  intro h
  unfold contentRowEvents at h
  cases hap : r.audio_path <;> cases hsp : r.script_path <;>
    rw [hap, hsp] at h <;> simp at h

/-- Splitting a flatMap at one member's block. -/
theorem flatMap_split {α β : Type} (f : α → List β) (l : List α) (r : α) (hr : r ∈ l) :
    ∃ t1 t2, l.flatMap f = t1 ++ (f r ++ t2) := by
  obtain ⟨s, t, hst⟩ := List.append_of_mem hr
  refine ⟨s.flatMap f, t.flatMap f, ?_⟩
  rw [hst, List.flatMap_append, List.flatMap_cons]

/-- Inside one content row's action block, the removal of a referenced
object precedes the row deletion. -/
theorem contentRowEvents_ordered (r : OutputRow) (p : String)
    (hp : r.audio_path = some p ∨ r.script_path = some p) :
    ∃ u1 u2, contentRowEvents r = u1 ++ u2 ∧
      CleanupEvent.removeObject p ∈ u1 ∧ CleanupEvent.deleteContentRow r.id ∈ u2 := by
  unfold contentRowEvents
  refine ⟨(match r.audio_path with
      | some q => [CleanupEvent.removeObject q]
      | none => []) ++
    (match r.script_path with
      | some q => [CleanupEvent.removeObject q]
      | none => []),
    [CleanupEvent.deleteContentRow r.id], by simp, ?_, by simp⟩
  rcases hp with hp | hp <;> rw [hp] <;> simp

/-- Inside one image row's action block, the removal of the referenced
object precedes the row deletion. -/
theorem imageRowEvents_ordered (r : ImageRow) (p : String)
    (hp : r.img_path = some p) :
    ∃ u1 u2, imageRowEvents r = u1 ++ u2 ∧
      CleanupEvent.removeObject p ∈ u1 ∧ CleanupEvent.deleteImageRow r.id ∈ u2 := by
  unfold imageRowEvents
  refine ⟨(match r.img_path with
      | some q => [CleanupEvent.removeObject q]
      | none => []),
    [CleanupEvent.deleteImageRow r.id], rfl, ?_, by simp⟩
  rw [hp]
  simp

/-- C10: one cleanup invocation captures a single timestamp `now`; a row of
`output_contents` or `output_images` is deleted only if its `expires_at` is
strictly earlier than `now`; for each such row every referenced storage
object is removed before the row itself is deleted; and every row whose
`expires_at` is not earlier than `now` remains in its table. -/
theorem cleanup_expired_rows (now : Nat) (db : CleanupDB) :
    (∀ i, CleanupEvent.deleteContentRow i ∈ (cleanup now db).2 →
      ∃ r, r ∈ db.output_contents ∧ r.id = i ∧ r.expires_at < now) ∧
    (∀ i, CleanupEvent.deleteImageRow i ∈ (cleanup now db).2 →
      ∃ r, r ∈ db.output_images ∧ r.id = i ∧ r.expires_at < now) ∧
    (∀ r p, r ∈ db.output_contents → r.expires_at < now →
      (r.audio_path = some p ∨ r.script_path = some p) →
      ∃ t1 t2, (cleanup now db).2 = t1 ++ t2 ∧
        CleanupEvent.removeObject p ∈ t1 ∧ CleanupEvent.deleteContentRow r.id ∈ t2) ∧
    (∀ r p, r ∈ db.output_images → r.expires_at < now → r.img_path = some p →
      ∃ t1 t2, (cleanup now db).2 = t1 ++ t2 ∧
        CleanupEvent.removeObject p ∈ t1 ∧ CleanupEvent.deleteImageRow r.id ∈ t2) ∧
    (∀ r, r ∈ db.output_contents → ¬ r.expires_at < now →
      r ∈ (cleanup now db).1.output_contents) ∧
    (∀ r, r ∈ db.output_images → ¬ r.expires_at < now →
      r ∈ (cleanup now db).1.output_images) := by
  have htr : (cleanup now db).2 =
      (db.output_contents.filter (fun r => decide (r.expires_at < now))).flatMap
          contentRowEvents ++
        (db.output_images.filter (fun r => decide (r.expires_at < now))).flatMap
          imageRowEvents := rfl
  refine ⟨?_, ?_, ?_, ?_, ?_, ?_⟩
  · intro i hi
    rw [htr] at hi
    rcases List.mem_append.1 hi with h | h
    · obtain ⟨r, hrf, hev⟩ := List.mem_flatMap.1 h
      obtain ⟨hr, hdec⟩ := List.mem_filter.1 hrf
      refine ⟨r, hr, (deleteContent_mem_contentRowEvents r i hev).symm, ?_⟩
      exact of_decide_eq_true hdec
    · obtain ⟨r, hrf, hev⟩ := List.mem_flatMap.1 h
      exact absurd hev (deleteContent_not_mem_imageRowEvents r i)
  · intro i hi
    rw [htr] at hi
    rcases List.mem_append.1 hi with h | h
    · obtain ⟨r, hrf, hev⟩ := List.mem_flatMap.1 h
      exact absurd hev (deleteImage_not_mem_contentRowEvents r i)
    · obtain ⟨r, hrf, hev⟩ := List.mem_flatMap.1 h
      obtain ⟨hr, hdec⟩ := List.mem_filter.1 hrf
      refine ⟨r, hr, (deleteImage_mem_imageRowEvents r i hev).symm, ?_⟩
      exact of_decide_eq_true hdec
  · intro r p hr hexp hp
    have hrf : r ∈ db.output_contents.filter (fun r2 => decide (r2.expires_at < now)) :=
      List.mem_filter.2 ⟨hr, decide_eq_true hexp⟩
    obtain ⟨t1, t2, hsplit⟩ := flatMap_split contentRowEvents _ r hrf
    obtain ⟨u1, u2, hu, hpu, hdu⟩ := contentRowEvents_ordered r p hp
    refine ⟨t1 ++ u1,
      u2 ++ t2 ++ (db.output_images.filter (fun r2 => decide (r2.expires_at < now))).flatMap
        imageRowEvents, ?_, by simp [hpu], by simp [hdu]⟩
    rw [htr, hsplit, hu]
    simp [List.append_assoc]
  · intro r p hr hexp hp
    have hrf : r ∈ db.output_images.filter (fun r2 => decide (r2.expires_at < now)) :=
      List.mem_filter.2 ⟨hr, decide_eq_true hexp⟩
    obtain ⟨t1, t2, hsplit⟩ := flatMap_split imageRowEvents _ r hrf
    obtain ⟨u1, u2, hu, hpu, hdu⟩ := imageRowEvents_ordered r p hp
    refine ⟨(db.output_contents.filter (fun r2 => decide (r2.expires_at < now))).flatMap
        contentRowEvents ++ t1 ++ u1, u2 ++ t2, ?_, by simp [hpu], by simp [hdu]⟩
    rw [htr, hsplit, hu]
    simp [List.append_assoc]
  · intro r hr hnot
    exact List.mem_filter.2 ⟨hr, by simp [hnot]⟩
  · intro r hr hnot
    exact List.mem_filter.2 ⟨hr, by simp [hnot]⟩

/-- The rows of the cleanup witness scenario: one expired content row with
both storage objects, one fresh content row, one expired image row. -/
def row0 : OutputRow := ⟨1, some ("a.mp3"), some ("s.txt"), 5⟩

/-- A content row that has not expired yet at time 10. -/
def row1 : OutputRow := ⟨2, none, none, 50⟩

/-- An expired image row at time 10. -/
def img0 : ImageRow := ⟨3, some ("i.png"), 5⟩

/-- The witness database. -/
def db0 : CleanupDB := ⟨[row0, row1], [img0]⟩

/-- Witness for C10 at time 10 on `db0`: the expired content row's audio
object is removed before its row deletion, and the fresh row survives. -/
theorem cleanup_expired_rows_witness :
    (row0 ∈ db0.output_contents ∧ row0.expires_at < 10 ∧
      row0.audio_path = some ("a.mp3")) ∧
    (∃ t1 t2, (cleanup 10 db0).2 = t1 ++ t2 ∧
      CleanupEvent.removeObject ("a.mp3") ∈ t1 ∧
      CleanupEvent.deleteContentRow row0.id ∈ t2) ∧
    (¬ row1.expires_at < 10 ∧ row1 ∈ (cleanup 10 db0).1.output_contents) := by
  refine ⟨⟨by simp [db0], by decide, rfl⟩, ?_, by decide, ?_⟩
  · exact (cleanup_expired_rows 10 db0).2.2.1 row0 ("a.mp3") (by simp [db0]) (by decide)
      (Or.inl rfl)
  · exact (cleanup_expired_rows 10 db0).2.2.2.2.1 row1 (by simp [db0]) (by decide)
